import Mathlib

/-!
Shallow embedding of the adaptive study scheduler core of this repository:
the spaced-repetition model (`spaced-repetition.ts`), the mastery estimator
(`mastery.ts`), the FIRe credit propagator (`fire.ts`), the difficulty
calibrator (`difficulty-calibrator.ts`), the scaffold function
(`gmat-constants.ts`) and the task selector (`task-selection.ts`).

JavaScript numbers are modelled by `ℚ` wherever the code only performs
field operations and comparisons; `Math.exp` and `Math.sqrt` force `ℝ`
(`calculateRetention`, `updateStability`).  `Date` values are modelled as
millisecond timestamps.  JavaScript `Map` (insertion-ordered, last value
wins) is modelled by `mkMap`/`mapGet`, and `Set` by an insertion-ordered
duplicate-free list built with `setAdd`.
-/

namespace Gmate

/-! ### Enumerations (from the generated prisma enums) -/

inductive Difficulty where
  | EASY
  | MEDIUM
  | HARD
deriving DecidableEq, Repr

inductive MasteryStage where
  | UNKNOWN
  | INTRODUCED
  | DEVELOPING
  | PROFICIENT
  | MASTERED
  | FLUENT
deriving DecidableEq, Repr

inductive TaskType where
  | REVIEW
  | NEW_TOPIC
  | CONSOLIDATION
  | WARMUP
deriving DecidableEq, Repr

/-! ### Spaced repetition (src/src/lib/spaced-repetition.ts) -/

def DEFAULT_INTERVAL_MS : ℚ := 4 * 60 * 60 * 1000

def MIN_INTERVAL_MS : ℚ := 30 * 60 * 1000

def MAX_INTERVAL_MS : ℚ := 90 * 24 * 60 * 60 * 1000

/-- `calculateRetention(lastPracticedAt, stabilityFactor, now)`:
`R = e^(-elapsedHours / stabilityHours)` clamped to `[0,1]`.
Times are millisecond timestamps; `Math.exp` forces the `ℝ` model. -/
noncomputable def calculateRetention (lastPracticedAt stabilityFactor now : ℝ) : ℝ :=
  let elapsedMs := now - lastPracticedAt
  let elapsedHours := elapsedMs / (60 * 60 * 1000)
  let stability := stabilityFactor * 24
  let retention := Real.exp (-elapsedHours / stability)
  max 0 (min 1 retention)

/-- `computeNextInterval(currentIntervalMs, accuracyScore, masteryLevel)`. -/
def computeNextInterval (currentIntervalMs accuracyScore masteryLevel : ℚ) : ℚ :=
  let newInterval : ℚ :=
    if 9/10 ≤ accuracyScore then currentIntervalMs * (5/2)
    else if 7/10 ≤ accuracyScore then currentIntervalMs * (3/2)
    else if 1/2 ≤ accuracyScore then currentIntervalMs
    else if 3/10 ≤ accuracyScore then currentIntervalMs * (1/2)
    else DEFAULT_INTERVAL_MS
  let withBonus := newInterval * (1 + masteryLevel * (1/10))
  max MIN_INTERVAL_MS (min MAX_INTERVAL_MS withBonus)

/-- `updateStability(currentStability, accuracyScore, practiceCount)`;
`Math.sqrt` forces the `ℝ` model. -/
noncomputable def updateStability (currentStability accuracyScore : ℝ)
    (practiceCount : ℕ) : ℝ :=
  let learningRate := max (1/10) (1 / Real.sqrt (practiceCount + 1))
  if 7/10 ≤ accuracyScore then currentStability + learningRate * accuracyScore
  else max (1/2) (currentStability - learningRate * (1 - accuracyScore))

/-! ### Mastery estimator (mastery.ts) -/

/-- `getMasteryStage(level)`. -/
def getMasteryStage (level : ℚ) : MasteryStage :=
  if 9/10 ≤ level then MasteryStage.FLUENT
  else if 3/4 ≤ level then MasteryStage.MASTERED
  else if 1/2 ≤ level then MasteryStage.PROFICIENT
  else if 3/10 ≤ level then MasteryStage.DEVELOPING
  else if 1/10 ≤ level then MasteryStage.INTRODUCED
  else MasteryStage.UNKNOWN

/-- `updateMasteryLevel(currentLevel, attemptScore, alpha)`: EMA step clamped
to `[0,1]`. -/
def updateMasteryLevel (currentLevel attemptScore alpha : ℚ) : ℚ :=
  let newLevel := currentLevel + alpha * (attemptScore - currentLevel)
  max 0 (min 1 newLevel)

structure AttemptRec where
  isCorrect : Bool
  createdAt : ℚ
deriving DecidableEq, Repr

/-- `calculateRollingAccuracy(attempts, windowDays, now)`. -/
def calculateRollingAccuracy (attempts : List AttemptRec) (windowDays : ℚ)
    (now : ℚ) : ℚ :=
  let windowStart := now - windowDays * 24 * 60 * 60 * 1000
  let windowAttempts := attempts.filter (fun a => decide (windowStart ≤ a.createdAt))
  if windowAttempts.length = 0 then 0
  else ((windowAttempts.filter (·.isCorrect)).length : ℚ) / windowAttempts.length

structure CurrentMastery where
  masteryLevel : ℚ
  practiceCount : ℕ
  accuracy7d : ℚ
  accuracy30d : ℚ
  avgTimeMs : ℚ
deriving DecidableEq, Repr

structure NewAttempt where
  isCorrect : Bool
  timeSpentMs : ℚ
deriving DecidableEq, Repr

structure MasteryUpdate where
  masteryLevel : ℚ
  masteryStage : MasteryStage
  practiceCount : ℕ
  accuracy7d : ℚ
  accuracy30d : ℚ
  avgTimeMs : ℚ
deriving DecidableEq, Repr

/-- `computeMasteryUpdate(current, newAttempt, recentAttempts, isImplicit)`.
The source reads the ambient clock (`new Date()` for the appended attempt and
the defaulted `now` of `calculateRollingAccuracy`); the single instant those
reads observe is made explicit here as the parameter `now`. -/
def computeMasteryUpdate (current : CurrentMastery) (newAttempt : NewAttempt)
    (recentAttempts : List AttemptRec) (isImplicit : Bool) (now : ℚ) :
    MasteryUpdate :=
  let alpha : ℚ := if isImplicit then 1/10 else 3/10
  let score : ℚ := if newAttempt.isCorrect then 1 else 0
  let newMasteryLevel := updateMasteryLevel current.masteryLevel score alpha
  let newPracticeCount := current.practiceCount + (if isImplicit then 0 else 1)
  let allAttempts := recentAttempts ++ [{ isCorrect := newAttempt.isCorrect, createdAt := now }]
  let accuracy7d := calculateRollingAccuracy allAttempts 7 now
  let accuracy30d := calculateRollingAccuracy allAttempts 30 now
  let newAvgTimeMs : ℚ :=
    if isImplicit then current.avgTimeMs
    else if current.practiceCount = 0 then newAttempt.timeSpentMs
    else ((round ((current.avgTimeMs * current.practiceCount + newAttempt.timeSpentMs) /
            (current.practiceCount + 1)) : ℤ) : ℚ)
  { masteryLevel := newMasteryLevel
    masteryStage := getMasteryStage newMasteryLevel
    practiceCount := newPracticeCount
    accuracy7d := accuracy7d
    accuracy30d := accuracy30d
    avgTimeMs := newAvgTimeMs }

/-! ### FIRe credit propagation (src/src/lib/fire.ts) -/

structure FIReCredit where
  topicId : String
  weight : ℚ
  depth : ℕ
deriving DecidableEq, Repr

/-- JavaScript `Set.add`: append if absent (insertion order preserved). -/
def setAdd (s : List String) (x : String) : List String :=
  if x ∈ s then s else s ++ [x]

/-- The credit entry pushed for prerequisite `p` by a loop running with fuel
`f`, i.e. at depth `4 - f`: `{ topicId: p, weight: 0.5^depth, depth }`. -/
def fireCredit (p : String) (f : ℕ) : FIReCredit :=
  { topicId := p, weight := (1/2 : ℚ) ^ (4 - f), depth := 4 - f }

/-- The `for` loop inside `computeFIReCredits`' `traverse`, processing the
prerequisite list `l` of a node whose children sit at depth `4 - f`.  The
state is the pair (visited set, credit list); `deeper` is the recursive
`traverse` call applied to a newly visited child. -/
def fireLevel
    (deeper : String → List String × List FIReCredit → List String × List FIReCredit)
    (f : ℕ) : List String → List String × List FIReCredit →
    List String × List FIReCredit
  | [], st => st
  | p :: ps, st =>
    if p ∈ st.1 then fireLevel deeper f ps st
    else fireLevel deeper f ps (deeper p (setAdd st.1 p, st.2 ++ [fireCredit p f]))

/-- `traverse(currentId, depth)` of `computeFIReCredits`, with fuel
`f = 5 - depth`: `f = 0` is the `depth > MAX_DEPTH` early return, and the
top-level call `traverse(topicId, 1)` has `f = 4`, crediting direct
prerequisites at depth 1. -/
def fireGo (g : String → List String) : ℕ → String →
    List String × List FIReCredit → List String × List FIReCredit
  | 0, _, st => st
  | f + 1, currentId, st => fireLevel (fun p st' => fireGo g f p st') f (g currentId) st

/-- `computeFIReCredits(topicId, getPrerequisites)`: depth-first traversal of
the prerequisite graph starting from the practiced topic, with the topic
itself pre-seeded in the visited set. -/
def computeFIReCredits (topicId : String) (getPrerequisites : String → List String) :
    List FIReCredit :=
  (fireGo getPrerequisites 4 topicId ([topicId], [])).2

/-- Spec-side notion: `t` is reachable from `s` by following `g`-edges along
some path of length between 1 and `d`.  The least such `d` is the shortest
prerequisite-path length the spec speaks about. -/
def reachableInSteps (g : String → List String) : ℕ → String → String → Bool
  | 0, _, _ => false
  | d + 1, s, t => (g s).any (fun x => x == t) || (g s).any (fun p => reachableInSteps g d p t)

/-! ### Difficulty calibrator (src/src/lib/difficulty-calibrator.ts,
with `OPTIMAL_ACCURACY_RANGE` and `getScaffoldLevel` from gmat-constants.ts) -/

def OPTIMAL_ACCURACY_MIN : ℚ := 7/10

def OPTIMAL_ACCURACY_MAX : ℚ := 17/20

structure DifficultyRecommendation where
  recommended : Difficulty
  reason : String
  inOptimalZone : Bool
deriving DecidableEq, Repr

def getHarderDifficulty : Difficulty → Difficulty
  | Difficulty.EASY => Difficulty.MEDIUM
  | Difficulty.MEDIUM => Difficulty.HARD
  | Difficulty.HARD => Difficulty.HARD

def getEasierDifficulty : Difficulty → Difficulty
  | Difficulty.EASY => Difficulty.EASY
  | Difficulty.MEDIUM => Difficulty.EASY
  | Difficulty.HARD => Difficulty.MEDIUM

/-- `pct(n)` = "`Math.round(n*100)`%". -/
def pct (n : ℚ) : String := toString (round (n * 100) : ℤ) ++ "%"

/-- `recommendDifficulty(currentDifficulty, recentAccuracy, practiceCount)`. -/
def recommendDifficulty (currentDifficulty : Difficulty) (recentAccuracy : ℚ)
    (practiceCount : ℕ) : DifficultyRecommendation :=
  if practiceCount < 5 then
    { recommended := currentDifficulty
      reason := "Not enough data yet — keep practicing at current level"
      inOptimalZone := true }
  else if OPTIMAL_ACCURACY_MAX < recentAccuracy then
    let harder := getHarderDifficulty currentDifficulty
    if harder ≠ currentDifficulty then
      { recommended := harder
        reason := "Accuracy " ++ pct recentAccuracy ++ " exceeds " ++ pct OPTIMAL_ACCURACY_MAX ++
          " — ready for harder questions"
        inOptimalZone := false }
    else
      { recommended := currentDifficulty
        reason := "Already at hardest level with " ++ pct recentAccuracy ++
          " accuracy — consider advancing topics"
        inOptimalZone := false }
  else if recentAccuracy < OPTIMAL_ACCURACY_MIN then
    let easier := getEasierDifficulty currentDifficulty
    if easier ≠ currentDifficulty then
      { recommended := easier
        reason := "Accuracy " ++ pct recentAccuracy ++ " below " ++ pct OPTIMAL_ACCURACY_MIN ++
          " — review at easier level first"
        inOptimalZone := false }
    else
      { recommended := currentDifficulty
        reason := "Already at easiest level with " ++ pct recentAccuracy ++
          " accuracy — review prerequisite topics"
        inOptimalZone := false }
  else
    { recommended := currentDifficulty
      reason := "Accuracy " ++ pct recentAccuracy ++ " is in the optimal " ++
        pct OPTIMAL_ACCURACY_MIN ++ "-" ++ pct OPTIMAL_ACCURACY_MAX ++ " learning zone"
      inOptimalZone := true }

/-- `getScaffoldLevel(masteryLevel, recentAccuracy, recentAttemptCount)`.
The JavaScript level arithmetic happens on values in `{1,..,4}`, where
`Math.max(1, level - k)` agrees with truncated `ℕ` subtraction. -/
def getScaffoldLevel (masteryLevel : ℚ) (recentAccuracy : Option ℚ)
    (recentAttemptCount : ℕ) : ℕ :=
  let level : ℕ :=
    if masteryLevel < 3/10 then 1
    else if masteryLevel < 1/2 then 2
    else if masteryLevel < 3/4 then 3
    else 4
  match recentAccuracy with
  | none => level
  | some acc =>
    if 3 ≤ recentAttemptCount then
      if acc < 2/5 then max 1 (level - 2)
      else if acc < 3/5 then max 1 (level - 1)
      else level
    else level

/-! ### Task selector data model (task-selection.ts) -/

structure TaskRecommendation where
  taskType : TaskType
  topicId : String
  topicName : String
  «section» : String
  questionId : Option String
  difficulty : Difficulty
  scaffoldLevel : ℕ
  reason : String
  urgency : ℚ
  fireConsolidatesTopics : Option (List String)
deriving DecidableEq, Repr

structure TopicRef where
  id : String
  name : String
deriving DecidableEq, Repr

structure TopicWithPrereqs where
  id : String
  name : String
  «section» : String
  prerequisites : List TopicRef
  prerequisiteOf : List TopicRef
deriving DecidableEq, Repr

structure TopicMasteryRecord where
  topicId : String
  masteryLevel : ℚ
  masteryStage : MasteryStage
  practiceCount : ℕ
  accuracy7d : ℚ
  accuracy30d : ℚ
  stabilityFactor : ℚ
  lastPracticedAt : Option ℚ
  nextReviewAt : Option ℚ
deriving DecidableEq, Repr

structure ReviewQueueItem where
  topicId : String
  urgency : ℚ
  scheduledAt : ℚ
  intervalMs : ℚ
  isDue : Bool
  retention : ℚ
deriving DecidableEq, Repr

structure TaskSelectorInput where
  allTopics : List TopicWithPrereqs
  allMastery : List TopicMasteryRecord
  reviewQueue : List ReviewQueueItem
deriving DecidableEq, Repr

/-- JavaScript `Map.set`: update in place if the key exists, else append. -/
def mapInsert {α : Type} (m : List (String × α)) (k : String) (v : α) :
    List (String × α) :=
  if m.any (fun p => p.1 == k) then
    m.map (fun p => if p.1 = k then (k, v) else p)
  else m ++ [(k, v)]

/-- JavaScript `new Map(entries)`: insertion-ordered, later values win. -/
def mkMap {α : Type} (entries : List (String × α)) : List (String × α) :=
  entries.foldl (fun m p => mapInsert m p.1 p.2) []

/-- JavaScript `Map.get` (keys of `mkMap` results are duplicate-free). -/
def mapGet {α : Type} (m : List (String × α)) (k : String) : Option α :=
  (m.find? (fun p => p.1 == k)).map (·.2)

/-- `isTopicUnlocked(topic, masteryMap)`: all prerequisites at mastery ≥ 0.5. -/
def isTopicUnlocked (topic : TopicWithPrereqs)
    (masteryMap : List (String × TopicMasteryRecord)) : Bool :=
  topic.prerequisites.all (fun prereq =>
    match mapGet masteryMap prereq.id with
    | none => false
    | some m => decide ((1 : ℚ)/2 ≤ m.masteryLevel))

/-- `computeKnowledgeFrontier(allTopics, masteryMap)`: unlocked topics with
mastery level (defaulting to 0) below 0.3. -/
def computeKnowledgeFrontier (allTopics : List TopicWithPrereqs)
    (masteryMap : List (String × TopicMasteryRecord)) : List TopicWithPrereqs :=
  allTopics.filter (fun topic =>
    isTopicUnlocked topic masteryMap &&
      decide ((match mapGet masteryMap topic.id with
               | none => (0 : ℚ)
               | some m => m.masteryLevel) < 3/10))

structure ConsolidationCandidate where
  topic : TopicWithPrereqs
  consolidates : List String
  avgUrgency : ℚ
  priority : ℚ
deriving DecidableEq, Repr

/-- The `for` loop inside `getPrereqGraph`'s `traverse`: the state is the
pair (visited set, prereq set); `deeper` is the recursive `traverse` call
applied to a newly visited child id. -/
def prereqLevel
    (deeper : String → List String × List String → List String × List String) :
    List TopicRef → List String × List String → List String × List String
  | [], st => st
  | p :: ps, st =>
    if p.id ∈ st.1 then prereqLevel deeper ps st
    else prereqLevel deeper ps (deeper p.id (setAdd st.1 p.id, setAdd st.2 p.id))

/-- `traverse(currentId, depth)` of `getPrereqGraph` with fuel
`f = 5 - depth`: the `depth > 4` check (`f = 0`) happens before the map
lookup, and a missing topic leaves the state unchanged. -/
def prereqGo (topicMap : List (String × TopicWithPrereqs)) :
    ℕ → String → List String × List String → List String × List String
  | 0, _, st => st
  | f + 1, currentId, st =>
    match mapGet topicMap currentId with
    | none => st
    | some t => prereqLevel (fun q st' => prereqGo topicMap f q st') t.prerequisites st

/-- `getPrereqGraph(topicId, topicMap)`: all prerequisite ids reached up to
depth 4 from `topicId` in the in-memory graph. -/
def getPrereqGraph (topicId : String)
    (topicMap : List (String × TopicWithPrereqs)) : List String :=
  (prereqGo topicMap 4 topicId ([topicId], [])).2

/-- `findConsolidationCandidates(dueTopicIds, allTopics, masteryMap, reviewQueue)`. -/
def findConsolidationCandidates (dueTopicIds : List String)
    (allTopics : List TopicWithPrereqs)
    (masteryMap : List (String × TopicMasteryRecord))
    (reviewQueue : List ReviewQueueItem) : List ConsolidationCandidate :=
  if dueTopicIds.length < 3 then []
  else
    let topicMap := mkMap (allTopics.map (fun t => (t.id, t)))
    let urgencyMap := mkMap (reviewQueue.map (fun r => (r.topicId, r.urgency)))
    let candidates := allTopics.foldl
      (fun cands topic =>
        if topic.id ∈ dueTopicIds then cands
        else
          match mapGet masteryMap topic.id with
          | none => cands
          | some m =>
            if m.masteryLevel < 3/10 then cands
            else
              let prereqs := getPrereqGraph topic.id topicMap
              let consolidates := dueTopicIds.filter (fun i => decide (i ∈ prereqs))
              if 2 ≤ consolidates.length then
                let avgUrgency :=
                  (consolidates.foldl (fun sum i => sum + ((mapGet urgencyMap i).getD 0)) 0) /
                    (consolidates.length : ℚ)
                cands ++ [{ topic := topic, consolidates := consolidates,
                            avgUrgency := avgUrgency, priority := avgUrgency + 2/10 }]
              else cands)
      []
    List.insertionSort (fun a b => b.priority ≤ a.priority) candidates

/-- `sectionPracticeCount` accumulation inside `prioritizeFrontierTopics`. -/
def sectionPracticeCountOf (allTopics : List TopicWithPrereqs)
    (masteryMap : List (String × TopicMasteryRecord)) : List (String × ℕ) :=
  (masteryMap.map Prod.snd).foldl
    (fun spc m =>
      match allTopics.find? (fun t => t.id == m.topicId) with
      | some topic =>
        if 0 < m.practiceCount then
          mapInsert spc topic.«section» (((mapGet spc topic.«section»).getD 0) + 1)
        else spc
      | none => spc)
    []

/-- `prioritizeFrontierTopics(frontier, allTopics, masteryMap)`: stable sort by
downstream-unlock count descending, ties broken by fewer practiced topics in
the section. -/
def prioritizeFrontierTopics (frontier : List TopicWithPrereqs)
    (allTopics : List TopicWithPrereqs)
    (masteryMap : List (String × TopicMasteryRecord)) : List TopicWithPrereqs :=
  let spc := sectionPracticeCountOf allTopics masteryMap
  List.insertionSort (fun a b =>
    if a.prerequisiteOf.length = b.prerequisiteOf.length then
      ((mapGet spc a.«section»).getD 0) ≤ ((mapGet spc b.«section»).getD 0)
    else
      b.prerequisiteOf.length ≤ a.prerequisiteOf.length) frontier

/-- `getDifficultyForTopic(m)`. -/
def getDifficultyForTopic (m : Option TopicMasteryRecord) : Difficulty :=
  match m with
  | none => Difficulty.EASY
  | some m =>
    if m.practiceCount < 5 then Difficulty.EASY
    else (recommendDifficulty Difficulty.MEDIUM m.accuracy7d m.practiceCount).recommended

/-- `getScaffoldForTopic(m)`. -/
def getScaffoldForTopic (m : Option TopicMasteryRecord) : ℕ :=
  match m with
  | none => 1
  | some m => getScaffoldLevel m.masteryLevel (some m.accuracy7d) m.practiceCount

/-! ### Task selector pipeline (`selectNextTasks`), decomposed into its
successive local values so theorems can speak about each stage. -/

def masteryMapOf (input : TaskSelectorInput) : List (String × TopicMasteryRecord) :=
  mkMap (input.allMastery.map (fun m => (m.topicId, m)))

def topicMapOf (input : TaskSelectorInput) : List (String × TopicWithPrereqs) :=
  mkMap (input.allTopics.map (fun t => (t.id, t)))

def urgencyMapOf (input : TaskSelectorInput) : List (String × ℚ) :=
  mkMap (input.reviewQueue.map (fun r => (r.topicId, r.urgency)))

/-- Step 1: due queue entries sorted by urgency descending (JavaScript `sort`
is stable; a stable sort for a total preorder is unique, here realised by the
stable `List.insertionSort`). -/
def dueReviewsOf (input : TaskSelectorInput) : List ReviewQueueItem :=
  List.insertionSort (fun a b => b.urgency ≤ a.urgency) (input.reviewQueue.filter (·.isDue))

/-- `dueTopicIds = new Set(dueReviews.map(r => r.topicId))`. -/
def dueTopicIdsOf (input : TaskSelectorInput) : List String :=
  (dueReviewsOf input).foldl (fun s r => setAdd s r.topicId) []

def consolidationsOf (input : TaskSelectorInput) : List ConsolidationCandidate :=
  findConsolidationCandidates (dueTopicIdsOf input) input.allTopics
    (masteryMapOf input) input.reviewQueue

/-- The CONSOLIDATION task pushed for a candidate in step 2. -/
def consolidationTask (masteryMap : List (String × TopicMasteryRecord))
    (c : ConsolidationCandidate) : TaskRecommendation :=
  let m := mapGet masteryMap c.topic.id
  { taskType := TaskType.CONSOLIDATION
    topicId := c.topic.id
    topicName := c.topic.name
    «section» := c.topic.«section»
    questionId := none
    difficulty := getDifficultyForTopic m
    scaffoldLevel := getScaffoldForTopic m
    reason := "Review " ++ toString c.consolidates.length ++ " topics at once via " ++ c.topic.name
    urgency := c.priority
    fireConsolidatesTopics := some c.consolidates }

/-- Step 2: emit consolidation tasks up to the slot budget and collect the
covered due-topic ids (the JavaScript `break` is equivalent to skipping once
the budget is reached, since the task list only grows). -/
def step2Of (input : TaskSelectorInput) (count : ℕ) :
    List TaskRecommendation × List String :=
  (consolidationsOf input).foldl
    (fun acc c =>
      if count ≤ acc.1.length then acc
      else (acc.1 ++ [consolidationTask (masteryMapOf input) c],
            c.consolidates.foldl setAdd acc.2))
    ([], [])

def remainingDueOf (input : TaskSelectorInput) (count : ℕ) : List ReviewQueueItem :=
  (dueReviewsOf input).filter (fun r => decide (r.topicId ∉ (step2Of input count).2))

/-- `reviewSlots = max(remainingDue.length, ceil((count - tasks.length) * 0.6))`. -/
def reviewSlotsOf (input : TaskSelectorInput) (count : ℕ) : ℤ :=
  max ((remainingDueOf input count).length : ℤ)
    (Int.ceil ((((count : ℚ) - (((step2Of input count).1.length : ℚ))) * (3/5))))

/-- The REVIEW task pushed for a due queue entry in step 3. -/
def reviewTask (topic : TopicWithPrereqs) (m : Option TopicMasteryRecord)
    (review : ReviewQueueItem) : TaskRecommendation :=
  { taskType := TaskType.REVIEW
    topicId := review.topicId
    topicName := topic.name
    «section» := topic.«section»
    questionId := none
    difficulty := getDifficultyForTopic m
    scaffoldLevel := getScaffoldForTopic m
    reason := "Review: " ++ topic.name ++ " retention at " ++
      toString (round (review.retention * 100) : ℤ) ++ "%"
    urgency := review.urgency
    fireConsolidatesTopics := none }

/-- Step 3: remaining due reviews (both `break`s are monotone in the growing
task list, so they are modelled as skips); a queue entry whose topic is
missing from the topic map is skipped. -/
def step3Of (input : TaskSelectorInput) (count : ℕ) : List TaskRecommendation :=
  let nCons : ℤ := ((consolidationsOf input).length : ℤ)
  let slots := reviewSlotsOf input count
  (remainingDueOf input count).foldl
    (fun tasks review =>
      if count ≤ tasks.length then tasks
      else if slots ≤ (tasks.length : ℤ) - nCons then tasks
      else
        match mapGet (topicMapOf input) review.topicId with
        | none => tasks
        | some topic =>
          tasks ++ [reviewTask topic (mapGet (masteryMapOf input) review.topicId) review])
    (step2Of input count).1

/-- `outstandingReviews = dueReviews.length - consolidatedTopicIds.size`. -/
def outstandingReviewsOf (input : TaskSelectorInput) (count : ℕ) : ℤ :=
  ((dueReviewsOf input).length : ℤ) - (((step2Of input count).2.length : ℤ))

/-- The NEW_TOPIC task pushed for a frontier topic in step 4. -/
def newTopicTask (masteryMap : List (String × TopicMasteryRecord))
    (topic : TopicWithPrereqs) : TaskRecommendation :=
  { taskType := TaskType.NEW_TOPIC
    topicId := topic.id
    topicName := topic.name
    «section» := topic.«section»
    questionId := none
    difficulty := Difficulty.EASY
    scaffoldLevel := getScaffoldForTopic (mapGet masteryMap topic.id)
    reason := "Learn: " ++ topic.name ++ " — prerequisites met"
    urgency := 0
    fireConsolidatesTopics := none }

/-- Step 4: fill with frontier topics unless 5+ reviews are outstanding. -/
def step4Of (input : TaskSelectorInput) (count : ℕ) : List TaskRecommendation :=
  let t3 := step3Of input count
  if outstandingReviewsOf input count < 5 ∧ t3.length < count then
    (prioritizeFrontierTopics
        (computeKnowledgeFrontier input.allTopics (masteryMapOf input))
        input.allTopics (masteryMapOf input)).foldl
      (fun tasks topic =>
        if count ≤ tasks.length then tasks
        else tasks ++ [newTopicTask (masteryMapOf input) topic])
      t3
  else t3

/-- `findIndex`/`splice` of the interleaving loop: first task whose section
differs, together with the remaining list in order. -/
def pickDiff (sec : String) : List TaskRecommendation →
    Option (TaskRecommendation × List TaskRecommendation)
  | [] => none
  | t :: ts =>
    if t.«section» = sec then
      match pickDiff sec ts with
      | some (u, us) => some (u, t :: us)
      | none => none
    else some (t, ts)

/-- The `while` loop of `interleaveBySections`, producing the tasks that
follow `last` in the result.  Each iteration removes exactly one task, so the
loop is indexed structurally by a fuel which `interleaveBySections` sets to
the number of remaining tasks. -/
def interleaveGo : ℕ → TaskRecommendation → List TaskRecommendation →
    List TaskRecommendation
  | 0, _, _ => []
  | n + 1, last, l =>
    match pickDiff last.«section» l with
    | some (u, us) => u :: interleaveGo n u us
    | none =>
      match l with
      | [] => []
      | t :: ts => t :: interleaveGo n t ts

/-- `interleaveBySections(tasks)`. -/
def interleaveBySections (tasks : List TaskRecommendation) :
    List TaskRecommendation :=
  if tasks.length ≤ 1 then tasks
  else
    match List.insertionSort (fun a b => b.urgency ≤ a.urgency) tasks with
    | [] => []
    | t :: ts => t :: interleaveGo ts.length t ts

/-- `selectNextTasks(input, count, now)` (the `now` parameter of the source is
unused by the body). -/
def selectNextTasks (input : TaskSelectorInput) (count : ℕ) (now : ℚ) :
    List TaskRecommendation :=
  interleaveBySections (step4Of input count)

/-- Spec-side predicate for the interleaving claim: whenever two adjacent
tasks share a section, every task from that position on has that section. -/
def sectionRunsOk : List TaskRecommendation → Bool
  | [] => true
  | [_] => true
  | a :: b :: rest =>
    ((a.«section» != b.«section») || (b :: rest).all (fun x => x.«section» == a.«section»)) &&
      sectionRunsOk (b :: rest)

/-- The invariant each emitted FIRe credit satisfies: weight `0.5^depth`,
depth within `[1,4]`, never the practiced topic itself, and the credited
topic reachable from the root within `depth` prerequisite steps. -/
def CreditOk (g : String → List String) (root : String) (c : FIReCredit) : Prop :=
  c.weight = (1/2 : ℚ) ^ c.depth ∧ 1 ≤ c.depth ∧ c.depth ≤ 4 ∧ c.topicId ≠ root ∧
    reachableInSteps g c.depth root c.topicId = true

/-- The invariant threaded through the FIRe traversal state: the root stays
visited, every credited topic is visited, credited topics are pairwise
distinct, and every credit satisfies `CreditOk`. -/
def FireInv (g : String → List String) (root : String)
    (st : List String × List FIReCredit) : Prop :=
  root ∈ st.1 ∧ (∀ c ∈ st.2, c.topicId ∈ st.1) ∧
    ((st.2.map (·.topicId)).Nodup) ∧ (∀ c ∈ st.2, CreditOk g root c)

/-! ### Concrete instances used by counterexamples and witnesses -/

/-- `"C"` is both a direct prerequisite of `"T"` and a prerequisite of `"A"`. -/
def exGraphA : String → List String := fun s =>
  if s = "T" then ["A", "C"] else if s = "A" then ["C"] else []

/-- `"A"` is a direct prerequisite of `"T"`, but the traversal first reaches
it at depth 4 through the chain `B → C → D`, so its child `"X"` is never
visited. -/
def exGraphB : String → List String := fun s =>
  if s = "T" then ["B", "A"]
  else if s = "B" then ["C"]
  else if s = "C" then ["D"]
  else if s = "D" then ["A"]
  else if s = "A" then ["X"]
  else []

def exCreditA : FIReCredit := { topicId := "A", weight := 1/2, depth := 1 }

def exCreditB : FIReCredit := { topicId := "B", weight := 1/2, depth := 1 }

def exCurrent : CurrentMastery :=
  { masteryLevel := 1/2, practiceCount := 1, accuracy7d := 0, accuracy30d := 0, avgTimeMs := 1000 }

def exNewAttempt : NewAttempt := { isCorrect := true, timeSpentMs := 1000 }

def exHistory : List AttemptRec := [{ isCorrect := false, createdAt := 0 }]

def mkTopic (i : String) (sec : String) (pr : List TopicRef) : TopicWithPrereqs :=
  { id := i, name := i, «section» := sec, prerequisites := pr, prerequisiteOf := [] }

def mkDue (i : String) (u : ℚ) : ReviewQueueItem :=
  { topicId := i, urgency := u, scheduledAt := 0, intervalMs := 0, isDue := true, retention := 1/2 }

def exMasteryW : TopicMasteryRecord :=
  { topicId := "W"
    masteryLevel := 1/2
    masteryStage := MasteryStage.PROFICIENT
    practiceCount := 0
    accuracy7d := 1/2
    accuracy30d := 1/2
    stabilityFactor := 1
    lastPracticedAt := none
    nextReviewAt := none }

/-- Three due topics `Z1 Z2 Z3`; practicing `W` (mastery 0.5, not due) covers
the due prerequisites `Z1` and `Z2`. -/
def exInput4 : TaskSelectorInput :=
  { allTopics := [mkTopic "Z1" "Q" [], mkTopic "Z2" "Q" [], mkTopic "Z3" "Q" [],
      mkTopic "W" "Q" [{ id := "Z1", name := "Z1" }, { id := "Z2", name := "Z2" }]]
    allMastery := [exMasteryW]
    reviewQueue := [mkDue "Z1" 1, mkDue "Z2" 1, mkDue "Z3" 1] }

/-- The CONSOLIDATION task `selectNextTasks exInput4 2 0` emits for `W`. -/
def exConsTask : TaskRecommendation :=
  { taskType := TaskType.CONSOLIDATION
    topicId := "W"
    topicName := "W"
    «section» := "Q"
    questionId := none
    difficulty := Difficulty.EASY
    scaffoldLevel := 3
    reason := "Review 2 topics at once via W"
    urgency := 6/5
    fireConsolidatesTopics := some ["Z1", "Z2"] }

/-- The REVIEW task `selectNextTasks exInput4 2 0` emits for `Z3`. -/
def exReviewZ3 : TaskRecommendation :=
  { taskType := TaskType.REVIEW
    topicId := "Z3"
    topicName := "Z3"
    «section» := "Q"
    questionId := none
    difficulty := Difficulty.EASY
    scaffoldLevel := 1
    reason := "Review: Z3 retention at 50%"
    urgency := 1
    fireConsolidatesTopics := none }

/-- Five due queue entries and no consolidation opportunities: the backlog
gate blocks new topics. -/
def exInput3 : TaskSelectorInput :=
  { allTopics := [], allMastery := [],
    reviewQueue := [mkDue "G1" 1, mkDue "G2" 1, mkDue "G3" 1, mkDue "G4" 1, mkDue "G5" 1] }

def exGhost : ReviewQueueItem := mkDue "ghost" 1

/-- A due queue entry for `"ghost"`, a topic absent from the topic list. -/
def exInput8 : TaskSelectorInput :=
  { allTopics := [mkTopic "T1" "Q" []], allMastery := [], reviewQueue := [exGhost] }

def wTaskA : TaskRecommendation :=
  { taskType := TaskType.REVIEW, topicId := "a", topicName := "a", «section» := "Q",
    questionId := none, difficulty := Difficulty.EASY, scaffoldLevel := 1,
    reason := "r", urgency := 2, fireConsolidatesTopics := none }

def wTaskB : TaskRecommendation :=
  { taskType := TaskType.REVIEW, topicId := "b", topicName := "b", «section» := "V",
    questionId := none, difficulty := Difficulty.EASY, scaffoldLevel := 1,
    reason := "r", urgency := 1, fireConsolidatesTopics := none }

/-! ## Theorems -/

/-! ### Generic helpers: sets, maps, folds -/

theorem mem_setAdd {s : List String} {x y : String} :
    y ∈ setAdd s x ↔ y ∈ s ∨ y = x := by
  simp only [setAdd]
  split_ifs with hx
  · constructor
    · exact Or.inl
    · rintro (h | rfl)
      · exact h
      · exact hx
  · simp [List.mem_append]

theorem subset_setAdd {s : List String} {x : String} : ∀ y ∈ s, y ∈ setAdd s x :=
  fun _ hy => mem_setAdd.mpr (Or.inl hy)

theorem self_mem_setAdd {s : List String} {x : String} : x ∈ setAdd s x :=
  mem_setAdd.mpr (Or.inr rfl)

theorem foldl_preserve {β γ : Type} (step : β → γ → β) (P : β → Prop) :
    ∀ (l : List γ) (acc : β),
      (∀ b c, c ∈ l → P b → P (step b c)) → P acc → P (l.foldl step acc) := by
  intro l
  induction l with
  | nil => intro acc _ h; simpa using h
  | cons c cs ih =>
    intro acc hstep hacc
    simp only [List.foldl_cons]
    exact ih _ (fun b c' hc' => hstep b c' (List.mem_cons_of_mem _ hc'))
      (hstep acc c (List.mem_cons_self _ _) hacc)

theorem mapGet_some_mem_keys {α : Type} {m : List (String × α)} {k : String} {v : α}
    (h : mapGet m k = some v) : k ∈ m.map Prod.fst := by
  unfold mapGet at h
  cases hf : m.find? (fun p => p.1 == k) with
  | none => rw [hf] at h; simp at h
  | some p =>
    have hk : p.1 = k := by simpa using List.find?_some hf
    exact hk ▸ List.mem_map_of_mem _ (List.mem_of_find?_eq_some hf)

theorem mapInsert_keys {α : Type} (m : List (String × α)) (k : String) (v : α) :
    ∀ x ∈ (mapInsert m k v).map Prod.fst, x ∈ m.map Prod.fst ∨ x = k := by
  intro x hx
  simp only [mapInsert] at hx
  split_ifs at hx with hany
  · rw [List.map_map] at hx
    obtain ⟨p, hp, hpx⟩ := List.mem_map.mp hx
    simp only [Function.comp] at hpx
    by_cases hpk : p.1 = k
    · rw [if_pos hpk] at hpx
      exact Or.inr hpx.symm
    · rw [if_neg hpk] at hpx
      exact Or.inl (hpx ▸ List.mem_map_of_mem _ hp)
  · rw [List.map_append] at hx
    rcases List.mem_append.mp hx with hx | hx
    · exact Or.inl hx
    · right
      simpa using hx

theorem mkMap_keys_subset {α : Type} (entries : List (String × α)) :
    ∀ x ∈ (mkMap entries).map Prod.fst, x ∈ entries.map Prod.fst := by
  unfold mkMap
  refine foldl_preserve (fun m p => mapInsert m p.1 p.2)
    (fun m => ∀ x ∈ m.map Prod.fst, x ∈ entries.map Prod.fst) entries [] ?_ (by simp)
  intro b c hc hb x hx
  rcases mapInsert_keys b c.1 c.2 x hx with h | h
  · exact hb x h
  · exact h ▸ List.mem_map_of_mem _ hc

/-! ### Reachability in the prerequisite graph -/

theorem reachableInSteps_succ_iff {g : String → List String} {d : ℕ} {s t : String} :
    reachableInSteps g (d + 1) s t = true ↔
      t ∈ g s ∨ ∃ p ∈ g s, reachableInSteps g d p t = true := by
  simp only [reachableInSteps, Bool.or_eq_true, List.any_eq_true, beq_iff_eq]
  constructor
  · rintro (⟨x, hx, rfl⟩ | h)
    · exact Or.inl hx
    · exact Or.inr h
  · rintro (h | h)
    · exact Or.inl ⟨t, h, rfl⟩
    · exact Or.inr h

theorem reachableInSteps_of_mem {g : String → List String} {s p : String}
    (h : p ∈ g s) (d : ℕ) : reachableInSteps g (d + 1) s p = true :=
  reachableInSteps_succ_iff.mpr (Or.inl h)

theorem reachableInSteps_step {g : String → List String} :
    ∀ {d : ℕ} {s p q : String}, reachableInSteps g d s p = true → q ∈ g p →
      reachableInSteps g (d + 1) s q = true := by
  intro d
  induction d with
  | zero => intro s p q h _; simp [reachableInSteps] at h
  | succ d ih =>
    intro s p q h hq
    rw [reachableInSteps_succ_iff] at h
    rw [reachableInSteps_succ_iff]
    rcases h with h | ⟨x, hx, hr⟩
    · exact Or.inr ⟨p, h, reachableInSteps_of_mem hq d⟩
    · exact Or.inr ⟨x, hx, ih hr hq⟩

/-! ### The FIRe traversal invariant -/

theorem fireCredit_topicId (p : String) (f : ℕ) : (fireCredit p f).topicId = p := rfl

theorem fireCredit_depth (p : String) (f : ℕ) : (fireCredit p f).depth = 4 - f := rfl

theorem fireCredit_ok {g : String → List String} {root p : String} {f : ℕ}
    (hf : f ≤ 3) (hproot : p ≠ root)
    (hreach : reachableInSteps g (4 - f) root p = true) :
    CreditOk g root (fireCredit p f) := by
  unfold CreditOk
  refine ⟨rfl, ?_, ?_, hproot, hreach⟩
  · rw [fireCredit_depth]
    omega
  · rw [fireCredit_depth]
    omega

/-! ### The FIRe traversal invariant -/

theorem fireLevel_spec (g : String → List String) (root : String)
    (deeper : String → List String × List FIReCredit → List String × List FIReCredit)
    (f : ℕ) (hf : f ≤ 3)
    (hdeeper : ∀ p st, FireInv g root st → reachableInSteps g (4 - f) root p = true →
      FireInv g root (deeper p st) ∧ ∀ x ∈ st.1, x ∈ (deeper p st).1) :
    ∀ (l : List String) (st : List String × List FIReCredit),
      FireInv g root st →
      (∀ p ∈ l, reachableInSteps g (4 - f) root p = true) →
      FireInv g root (fireLevel deeper f l st) ∧
        ∀ x ∈ st.1, x ∈ (fireLevel deeper f l st).1 := by
  intro l
  induction l with
  | nil =>
    intro st hst _
    simp only [fireLevel]
    exact ⟨hst, fun _ hx => hx⟩
  | cons p ps ih =>
    intro st hst hl
    obtain ⟨hroot, hids, hnd, hok⟩ := hst
    by_cases hpv : p ∈ st.1
    · have heq : fireLevel deeper f (p :: ps) st = fireLevel deeper f ps st := by
        simp only [fireLevel]
        rw [if_pos hpv]
      rw [heq]
      exact ih st ⟨hroot, hids, hnd, hok⟩ (fun q hq => hl q (List.mem_cons_of_mem _ hq))
    · have hreach := hl p (List.mem_cons_self _ _)
      have hproot : p ≠ root := fun h => hpv (h ▸ hroot)
      have hst1 : FireInv g root (setAdd st.1 p, st.2 ++ [fireCredit p f]) := by
        refine ⟨subset_setAdd root hroot, ?_, ?_, ?_⟩
        · intro c hc
          rcases List.mem_append.mp hc with hc | hc
          · exact subset_setAdd _ (hids c hc)
          · simp at hc
            subst hc
            rw [fireCredit_topicId]
            exact self_mem_setAdd
        · rw [List.map_append]
          refine List.Nodup.append hnd (by simp) ?_
          intro x hx hx'
          simp only [List.map_cons, List.map_nil, List.mem_singleton,
            fireCredit_topicId] at hx'
          subst hx'
          obtain ⟨c, hc, hcx⟩ := List.mem_map.mp hx
          exact hpv (hcx ▸ hids c hc)
        · intro c hc
          rcases List.mem_append.mp hc with hc | hc
          · exact hok c hc
          · simp at hc
            subst hc
            exact fireCredit_ok hf hproot hreach
      have hd := hdeeper p _ hst1 hreach
      have hrec := ih (deeper p (setAdd st.1 p, st.2 ++ [fireCredit p f])) hd.1
        (fun q hq => hl q (List.mem_cons_of_mem _ hq))
      have heq : fireLevel deeper f (p :: ps) st =
          fireLevel deeper f ps (deeper p (setAdd st.1 p, st.2 ++ [fireCredit p f])) := by
        simp only [fireLevel]
        rw [if_neg hpv]
      rw [heq]
      exact ⟨hrec.1, fun x hx => hrec.2 x (hd.2 x (subset_setAdd x hx))⟩

theorem fireGo_spec (g : String → List String) (root : String) :
    ∀ F, F ≤ 4 → ∀ (cur : String) (st : List String × List FIReCredit),
      FireInv g root st →
      (∀ p ∈ g cur, reachableInSteps g (5 - F) root p = true) →
      FireInv g root (fireGo g F cur st) ∧ ∀ x ∈ st.1, x ∈ (fireGo g F cur st).1 := by
  intro F
  induction F with
  | zero =>
    intro _ cur st hst _
    simp only [fireGo]
    exact ⟨hst, fun _ hx => hx⟩
  | succ f ih =>
    intro hF cur st hst hcur
    have hf : f ≤ 3 := by omega
    have heq : fireGo g (f + 1) cur st =
        fireLevel (fun p st' => fireGo g f p st') f (g cur) st := rfl
    rw [heq]
    refine fireLevel_spec g root _ f hf ?_ (g cur) st hst ?_
    · intro p st' hst' hp
      apply ih (by omega) p st' hst'
      intro q hq
      have h := reachableInSteps_step hp hq
      have harith : 4 - f + 1 = 5 - f := by omega
      rwa [harith] at h
    · intro p hp
      have h := hcur p hp
      have harith : 5 - (f + 1) = 4 - f := by omega
      rwa [harith] at h

theorem computeFIReCredits_spec (g : String → List String) (T : String) :
    (∀ c ∈ computeFIReCredits T g, CreditOk g T c) ∧
      (((computeFIReCredits T g).map (·.topicId)).Nodup) := by
  have hinv : FireInv g T ([T], []) := by
    unfold FireInv
    refine ⟨by simp, by simp, by simp, by simp⟩
  have h := fireGo_spec g T 4 (by omega) T ([T], []) hinv
    (fun p hp => by
      have := reachableInSteps_of_mem (g := g) hp 0
      simpa using this)
  obtain ⟨⟨_, _, hnd, hok⟩, _⟩ := h
  exact ⟨hok, hnd⟩


/-! ### Claim C1 -/

/-- C1 (amended): every credit entry returned by `computeFIReCredits` has
weight `0.5 ^ depth` for its recorded depth, that depth lies in `[1, 4]`, and
the credited ancestor is reachable from the practiced topic within that many
prerequisite steps.  The recorded depth is the first-visit depth of the
depth-first traversal, which can exceed the shortest-path length. -/
theorem fire_credit_weight_depth_C1 (g : String → List String) (T : String) :
    ∀ c ∈ computeFIReCredits T g,
      c.weight = (1/2 : ℚ) ^ c.depth ∧ 1 ≤ c.depth ∧ c.depth ≤ 4 ∧
        reachableInSteps g c.depth T c.topicId = true := by
  intro c hc
  obtain ⟨hw, h1, h4, _, hr⟩ := (computeFIReCredits_spec g T).1 c hc
  exact ⟨hw, h1, h4, hr⟩

/-- C1 counterexample: on `exGraphA`, topic `"C"` is a direct prerequisite of
`"T"` (shortest prerequisite-path length 1), yet its credit entry records
depth 2 (and weight 0.25), because the depth-first traversal reaches it first
through `"A"`.  So recorded depths are not shortest-path lengths. -/
theorem fire_shortest_depth_counterexample_C1 :
    ¬ (∀ c ∈ computeFIReCredits "T" exGraphA,
        ∀ d : ℕ, d < c.depth → reachableInSteps exGraphA d "T" c.topicId = false) := by
  decide

/-- C1 witness: the depth-1 credit for `"A"` on `exGraphA`. -/
theorem fire_credit_weight_depth_C1_witness :
    exCreditA.weight = (1/2 : ℚ) ^ exCreditA.depth ∧ 1 ≤ exCreditA.depth ∧
      exCreditA.depth ≤ 4 ∧
      reachableInSteps exGraphA exCreditA.depth "T" exCreditA.topicId = true :=
  fire_credit_weight_depth_C1 exGraphA "T" exCreditA (by
    have h : computeFIReCredits "T" exGraphA =
        [exCreditA, { topicId := "C", weight := 1/4, depth := 2 }] := by
      with_unfolding_all rfl
    rw [h]
    exact List.mem_cons_self _ _)

/-! ### Claim C2 -/

/-- C2 (amended): `computeFIReCredits` never credits the practiced topic
itself, never emits an entry with depth greater than 4, and emits at most one
credit entry per topic (the credited topic ids are pairwise distinct).  An
ancestor reachable within the depth bound can nevertheless receive no credit
when the depth-first traversal first reaches an intermediate node at the
depth-4 cutoff via a longer path. -/
theorem fire_credit_uniqueness_C2 (g : String → List String) (T : String) :
    (∀ c ∈ computeFIReCredits T g, c.topicId ≠ T ∧ c.depth ≤ 4) ∧
      (((computeFIReCredits T g).map (·.topicId)).Nodup) := by
  obtain ⟨hall, hnd⟩ := computeFIReCredits_spec g T
  exact ⟨fun c hc => ⟨(hall c hc).2.2.2.1, (hall c hc).2.2.1⟩, hnd⟩

/-- C2 counterexample: on `exGraphB` the topic `"X"` is reachable from `"T"`
within the depth bound (via the direct prerequisite `"A"`, at depth 2), yet no
credit entry for `"X"` is emitted: the traversal first reaches `"A"` at depth
4 through `B → C → D` and therefore never expands it. -/
theorem fire_missed_ancestor_counterexample_C2 :
    reachableInSteps exGraphB 4 "T" "X" = true ∧
      ∀ c ∈ computeFIReCredits "T" exGraphB, c.topicId ≠ "X" := by
  decide

/-- C2 witness: the credit list of `exGraphB` at the entry for `"B"`. -/
theorem fire_credit_uniqueness_C2_witness :
    (exCreditB.topicId ≠ "T" ∧ exCreditB.depth ≤ 4) ∧
      (((computeFIReCredits "T" exGraphB).map (·.topicId)).Nodup) :=
  ⟨(fire_credit_uniqueness_C2 exGraphB "T").1 exCreditB (by
      have h : computeFIReCredits "T" exGraphB =
          [exCreditB, { topicId := "C", weight := 1/4, depth := 2 },
            { topicId := "D", weight := 1/8, depth := 3 },
            { topicId := "A", weight := 1/16, depth := 4 }] := by
        with_unfolding_all rfl
      rw [h]
      exact List.mem_cons_self _ _),
   (fire_credit_uniqueness_C2 exGraphB "T").2⟩

/-! ### Claim C6 -/

/-- C6: `updateMasteryLevel` always lands in `[0,1]`; `computeNextInterval`
always lands in `[30 minutes, 90 days]` (in milliseconds); and
`updateStability` never returns less than `0.5` when the current stability is
at least `0.5` and the accuracy score lies in `[0,1]`. -/
theorem numeric_invariants_C6 (c s a i acc m : ℚ) (cs a2 : ℝ) (pc : ℕ)
    (hcs : (1 : ℝ)/2 ≤ cs) (ha2 : 0 ≤ a2) (ha2' : a2 ≤ 1) :
    (0 ≤ updateMasteryLevel c s a ∧ updateMasteryLevel c s a ≤ 1) ∧
      (MIN_INTERVAL_MS ≤ computeNextInterval i acc m ∧
        computeNextInterval i acc m ≤ MAX_INTERVAL_MS) ∧
      (1/2 ≤ updateStability cs a2 pc) := by
  refine ⟨⟨le_max_left 0 _, max_le (by norm_num) (min_le_left _ _)⟩,
    ⟨le_max_left _ _, ?_⟩, ?_⟩
  · refine max_le ?_ (min_le_left _ _)
    unfold MIN_INTERVAL_MS MAX_INTERVAL_MS
    norm_num
  · unfold updateStability
    split_ifs with hacc
    · have hlr : (0 : ℝ) ≤ max (1/10) (1 / Real.sqrt (pc + 1)) :=
        le_trans (by norm_num) (le_max_left _ _)
      nlinarith [mul_nonneg hlr ha2]
    · exact le_max_left _ _

/-- C6 witness at mastery score `(0,0,0)`, interval input `(0,0,0)` and
stability input `(1/2, 0, 0)`. -/
theorem numeric_invariants_C6_witness :
    (0 ≤ updateMasteryLevel 0 0 0 ∧ updateMasteryLevel 0 0 0 ≤ 1) ∧
      (MIN_INTERVAL_MS ≤ computeNextInterval 0 0 0 ∧
        computeNextInterval 0 0 0 ≤ MAX_INTERVAL_MS) ∧
      (1/2 ≤ updateStability (1/2) 0 0) :=
  numeric_invariants_C6 0 0 0 0 0 0 (1/2) 0 0 le_rfl le_rfl zero_le_one

/-! ### Claim C7 -/

/-- C7: for a fixed stability factor `> 0`, `calculateRetention` is
non-increasing in the elapsed time `now - lastPracticedAt`; and for a fixed
non-negative elapsed time it is non-decreasing in the stability factor. -/
theorem retention_monotonicity_C7 :
    (∀ S : ℝ, 0 < S → ∀ last n1 n2 : ℝ, n1 - last ≤ n2 - last →
        calculateRetention last S n2 ≤ calculateRetention last S n1) ∧
      (∀ last n : ℝ, 0 ≤ n - last → ∀ S1 S2 : ℝ, 0 < S1 → S1 ≤ S2 →
        calculateRetention last S1 n ≤ calculateRetention last S2 n) := by
  constructor
  · intro S hS last n1 n2 h
    simp only [calculateRetention]
    refine max_le_max le_rfl (min_le_min le_rfl ?_)
    apply Real.exp_le_exp.mpr
    have hd : (0 : ℝ) < S * 24 := by positivity
    have h36 : (0 : ℝ) < 60 * 60 * 1000 := by norm_num
    rw [div_le_div_iff_of_pos_right hd, neg_le_neg_iff,
      div_le_div_iff_of_pos_right h36]
    exact h
  · intro last n h S1 S2 hS1 hS2
    simp only [calculateRetention]
    refine max_le_max le_rfl (min_le_min le_rfl ?_)
    apply Real.exp_le_exp.mpr
    have ht : (0 : ℝ) ≤ (n - last) / (60 * 60 * 1000) := div_nonneg h (by norm_num)
    rw [neg_div, neg_div, neg_le_neg_iff]
    gcongr

/-- C7 witness at stability 1, timestamps `(0, 0, 1)` and stabilities `1 ≤ 2`. -/
theorem retention_monotonicity_C7_witness :
    calculateRetention 0 1 1 ≤ calculateRetention 0 1 0 ∧
      calculateRetention 0 1 1 ≤ calculateRetention 0 2 1 :=
  ⟨retention_monotonicity_C7.1 1 zero_lt_one 0 0 1 (by simp),
   retention_monotonicity_C7.2 0 1 (by simp) 1 2 zero_lt_one one_le_two⟩

/-! ### Claim C9 -/

/-- C9 (amended): with the clock instant read inside `computeMasteryUpdate`
made explicit, the mastery level, mastery stage, practice count and average
time of the result are determined by the explicit arguments alone — they do
not depend on the instant.  The 7-day and 30-day accuracies do depend on the
instant (see the counterexample), because the source reads `new Date()`
internally instead of taking the reference instant as a parameter. -/
theorem computeMasteryUpdate_instant_independent_C9
    (current : CurrentMastery) (newAttempt : NewAttempt)
    (recentAttempts : List AttemptRec) (isImplicit : Bool) (t1 t2 : ℚ) :
    (computeMasteryUpdate current newAttempt recentAttempts isImplicit t1).masteryLevel =
        (computeMasteryUpdate current newAttempt recentAttempts isImplicit t2).masteryLevel ∧
      (computeMasteryUpdate current newAttempt recentAttempts isImplicit t1).masteryStage =
        (computeMasteryUpdate current newAttempt recentAttempts isImplicit t2).masteryStage ∧
      (computeMasteryUpdate current newAttempt recentAttempts isImplicit t1).practiceCount =
        (computeMasteryUpdate current newAttempt recentAttempts isImplicit t2).practiceCount ∧
      (computeMasteryUpdate current newAttempt recentAttempts isImplicit t1).avgTimeMs =
        (computeMasteryUpdate current newAttempt recentAttempts isImplicit t2).avgTimeMs :=
  ⟨rfl, rfl, rfl, rfl⟩

/-- C9 counterexample: two invocations with identical explicit arguments but
run at different instants (time 0 versus 8 days later) return different
`accuracy7d`, because the 7-day window filter uses the internally-read clock:
the history attempt at time 0 falls out of the window at the later instant. -/
theorem computeMasteryUpdate_clock_dependent_C9 :
    (computeMasteryUpdate exCurrent exNewAttempt exHistory false 0).accuracy7d ≠
      (computeMasteryUpdate exCurrent exNewAttempt exHistory false 691200000).accuracy7d := by
  have h1 : (computeMasteryUpdate exCurrent exNewAttempt exHistory false 0).accuracy7d
      = 1/2 := by
    with_unfolding_all rfl
  have h2 : (computeMasteryUpdate exCurrent exNewAttempt exHistory false
      691200000).accuracy7d = 1 := by
    with_unfolding_all rfl
  rw [h1, h2]
  norm_num

/-! ### Claim C10 -/

/-- C10: with fewer than 5 practices, `recommendDifficulty` returns the
current difficulty unchanged and reports `inOptimalZone = true`, for every
recent accuracy (including accuracies far outside the optimal band). -/
theorem recommendDifficulty_low_data_C10 (d : Difficulty) (acc : ℚ) (pc : ℕ)
    (h : pc < 5) :
    (recommendDifficulty d acc pc).recommended = d ∧
      (recommendDifficulty d acc pc).inOptimalZone = true := by
  unfold recommendDifficulty
  rw [if_pos h]
  exact ⟨rfl, rfl⟩

/-- C10 witness: MEDIUM difficulty with accuracy 0 and no practices. -/
theorem recommendDifficulty_low_data_C10_witness :
    (recommendDifficulty Difficulty.MEDIUM 0 0).recommended = Difficulty.MEDIUM ∧
      (recommendDifficulty Difficulty.MEDIUM 0 0).inOptimalZone = true :=
  recommendDifficulty_low_data_C10 Difficulty.MEDIUM 0 0 (by omega)

/-! ### Interleaving lemmas -/

theorem pickDiff_some {sec : String} :
    ∀ {l : List TaskRecommendation} {u : TaskRecommendation}
      {us : List TaskRecommendation}, pickDiff sec l = some (u, us) →
      u.«section» ≠ sec ∧ us.length < l.length ∧ u ∈ l ∧ ∀ x ∈ us, x ∈ l := by
  intro l
  induction l with
  | nil => intro u us h; simp [pickDiff] at h
  | cons t ts ih =>
    intro u us h
    simp only [pickDiff] at h
    split_ifs at h with hts
    · cases hrec : pickDiff sec ts with
      | none => rw [hrec] at h; simp at h
      | some pr =>
        obtain ⟨v, vs⟩ := pr
        rw [hrec] at h
        simp only [Option.some_inj, Prod.mk.injEq] at h
        obtain ⟨hu, hus⟩ := h
        subst hu
        subst hus
        obtain ⟨h1, h2, h3, h4⟩ := ih hrec
        refine ⟨h1, by simp; omega, List.mem_cons_of_mem _ h3, ?_⟩
        intro x hx
        rcases List.mem_cons.mp hx with hx | hx
        · exact hx ▸ List.mem_cons_self _ _
        · exact List.mem_cons_of_mem _ (h4 x hx)
    · simp only [Option.some_inj, Prod.mk.injEq] at h
      obtain ⟨hu, hus⟩ := h
      subst hu
      subst hus
      exact ⟨hts, by simp, List.mem_cons_self _ _, fun x hx => List.mem_cons_of_mem _ hx⟩

theorem pickDiff_none {sec : String} :
    ∀ {l : List TaskRecommendation}, pickDiff sec l = none →
      ∀ x ∈ l, x.«section» = sec := by
  intro l
  induction l with
  | nil => intro _ x hx; simp at hx
  | cons t ts ih =>
    intro h x hx
    simp only [pickDiff] at h
    split_ifs at h with hts
    · cases hrec : pickDiff sec ts with
      | some pr => rw [hrec] at h; simp at h
      | none =>
        rcases List.mem_cons.mp hx with hx | hx
        · exact hx ▸ hts
        · exact ih hrec x hx

theorem interleaveGo_mem :
    ∀ (n : ℕ) (last : TaskRecommendation) (l : List TaskRecommendation),
      ∀ x ∈ interleaveGo n last l, x ∈ l := by
  intro n
  induction n with
  | zero => intro last l x hx; simp [interleaveGo] at hx
  | succ n ih =>
    intro last l x hx
    simp only [interleaveGo] at hx
    cases hpd : pickDiff last.«section» l with
    | some pr =>
      obtain ⟨u, us⟩ := pr
      rw [hpd] at hx
      obtain ⟨_, _, hu, hus⟩ := pickDiff_some hpd
      rcases List.mem_cons.mp hx with hx | hx
      · exact hx ▸ hu
      · exact hus x (ih u us x hx)
    | none =>
      rw [hpd] at hx
      cases l with
      | nil => simp at hx
      | cons t ts =>
        rcases List.mem_cons.mp hx with hx | hx
        · exact hx ▸ List.mem_cons_self _ _
        · exact List.mem_cons_of_mem _ (ih t ts x hx)

theorem interleaveGo_runs :
    ∀ (n : ℕ) (l : List TaskRecommendation) (last : TaskRecommendation),
      l.length ≤ n → sectionRunsOk (last :: interleaveGo n last l) = true := by
  intro n
  induction n with
  | zero =>
    intro l last hl
    have : l = [] := List.length_eq_zero.mp (by omega)
    subst this
    rfl
  | succ n ih =>
    intro l last hl
    simp only [interleaveGo]
    cases hpd : pickDiff last.«section» l with
    | some pr =>
      obtain ⟨u, us⟩ := pr
      obtain ⟨hsec, hlen, _, _⟩ := pickDiff_some hpd
      simp only [sectionRunsOk, Bool.and_eq_true, Bool.or_eq_true]
      constructor
      · left
        exact bne_iff_ne.mpr (fun h => hsec h.symm)
      · exact ih us u (by omega)
    | none =>
      cases l with
      | nil => rfl
      | cons t ts =>
        have hall := pickDiff_none hpd
        simp only [sectionRunsOk, Bool.and_eq_true, Bool.or_eq_true]
        constructor
        · right
          rw [List.all_eq_true]
          intro x hx
          rcases List.mem_cons.mp hx with hx | hx
          · rw [hx]
            exact beq_iff_eq.mpr (hall t (List.mem_cons_self _ _))
          · exact beq_iff_eq.mpr
              (hall x (List.mem_cons_of_mem _ (interleaveGo_mem n t ts x hx)))
        · exact ih ts t (by simpa using Nat.le_of_succ_le_succ (by simpa using hl))

/-! ### Claim C5 -/

/-- C5: in the output of `interleaveBySections`, whenever two adjacent tasks
share the same section, every task from that position to the end of the list
has that same section; and the first output task has maximal urgency among the
inputs. -/
theorem interleave_properties_C5 (tasks : List TaskRecommendation) :
    sectionRunsOk (interleaveBySections tasks) = true ∧
      ∀ h0, (interleaveBySections tasks).head? = some h0 →
        ∀ t ∈ tasks, t.urgency ≤ h0.urgency := by
  haveI htot : IsTotal TaskRecommendation (fun a b => b.urgency ≤ a.urgency) :=
    ⟨fun a b => le_total b.urgency a.urgency⟩
  haveI htr : IsTrans TaskRecommendation (fun a b => b.urgency ≤ a.urgency) :=
    ⟨fun _ _ _ h1 h2 => le_trans h2 h1⟩
  unfold interleaveBySections
  split_ifs with hlen
  · match tasks, hlen with
    | [], _ => exact ⟨rfl, by intro h0 hh0; simp at hh0⟩
    | [a], _ =>
      refine ⟨rfl, ?_⟩
      intro h0 hh0 t ht
      have ha : a = h0 := by simpa using hh0
      have hta : t = a := by simpa using ht
      rw [hta, ha]
  · cases hs : List.insertionSort (fun a b => b.urgency ≤ a.urgency) tasks with
    | nil =>
      exfalso
      have := List.length_insertionSort (fun a b => b.urgency ≤ a.urgency) tasks
      rw [hs] at this
      simp at this
      rw [← this] at hlen
      simp at hlen
    | cons t0 ts0 =>
      constructor
      · exact interleaveGo_runs ts0.length ts0 t0 le_rfl
      · intro h0 hh0 t ht
        simp only [List.head?_cons, Option.some_inj] at hh0
        subst hh0
        have hsorted := List.sorted_insertionSort (fun a b => b.urgency ≤ a.urgency) tasks
        rw [hs] at hsorted
        have hmem : t ∈ t0 :: ts0 := by
          rw [← hs]
          exact (List.mem_insertionSort _).mpr ht
        rcases List.mem_cons.mp hmem with h | h
        · rw [h]
        · exact (List.sorted_cons.mp hsorted).1 t h

/-- C5 witness at the two-task list `[wTaskA, wTaskB]` (urgencies 2 and 1). -/
theorem interleave_properties_C5_witness :
    sectionRunsOk (interleaveBySections [wTaskA, wTaskB]) = true ∧
      wTaskB.urgency ≤ wTaskA.urgency :=
  ⟨(interleave_properties_C5 [wTaskA, wTaskB]).1,
   (interleave_properties_C5 [wTaskA, wTaskB]).2 wTaskA (by
      have h : interleaveBySections [wTaskA, wTaskB] = [wTaskA, wTaskB] := by
        with_unfolding_all rfl
      rw [h]
      rfl) wTaskB (by simp)⟩

/-! ### Task selector invariants -/

theorem interleave_mem {tasks : List TaskRecommendation} :
    ∀ x ∈ interleaveBySections tasks, x ∈ tasks := by
  intro x hx
  unfold interleaveBySections at hx
  split_ifs at hx with hlen
  · exact hx
  · cases hs : List.insertionSort (fun a b => b.urgency ≤ a.urgency) tasks with
    | nil => rw [hs] at hx; simp at hx
    | cons t0 ts0 =>
      rw [hs] at hx
      have hmem : x ∈ t0 :: ts0 := by
        rcases List.mem_cons.mp hx with h | h
        · exact h ▸ List.mem_cons_self _ _
        · exact List.mem_cons_of_mem _ (interleaveGo_mem ts0.length t0 ts0 x h)
      rw [← hs] at hmem
      exact (List.mem_insertionSort _).mp hmem

theorem consolidationsOf_spec (input : TaskSelectorInput) :
    ∀ c ∈ consolidationsOf input,
      3 ≤ (dueTopicIdsOf input).length ∧
        c.topic.id ∉ dueTopicIdsOf input ∧
        (∃ m, mapGet (masteryMapOf input) c.topic.id = some m ∧
          3/10 ≤ m.masteryLevel) ∧
        2 ≤ c.consolidates.length ∧
        (∀ x ∈ c.consolidates, x ∈ dueTopicIdsOf input) ∧
        c.priority = (c.consolidates.foldl
            (fun sum i => sum + ((mapGet (urgencyMapOf input) i).getD 0)) 0) /
            (c.consolidates.length : ℚ) + 2/10 := by
  intro c hc
  unfold consolidationsOf findConsolidationCandidates at hc
  split_ifs at hc with h3
  · simp at hc
  · rw [List.mem_insertionSort] at hc
    refine foldl_preserve _
      (fun cands => ∀ c' ∈ cands,
        3 ≤ (dueTopicIdsOf input).length ∧
          c'.topic.id ∉ dueTopicIdsOf input ∧
          (∃ m, mapGet (masteryMapOf input) c'.topic.id = some m ∧
            3/10 ≤ m.masteryLevel) ∧
          2 ≤ c'.consolidates.length ∧
          (∀ x ∈ c'.consolidates, x ∈ dueTopicIdsOf input) ∧
          c'.priority = (c'.consolidates.foldl
              (fun sum i => sum + ((mapGet (urgencyMapOf input) i).getD 0)) 0) /
              (c'.consolidates.length : ℚ) + 2/10)
      input.allTopics [] ?_ (by simp) c hc
    intro b topic htopic hb c' hc'
    dsimp only at hc'
    split at hc'
    · exact hb c' hc'
    · rename_i hdue
      split at hc'
      · exact hb c' hc'
      · rename_i m hm
        split at hc'
        · exact hb c' hc'
        · rename_i hlevel
          split at hc'
          · rename_i hlen2
            rcases List.mem_append.mp hc' with hc' | hc'
            · exact hb c' hc'
            · simp only [List.mem_singleton] at hc'
              subst hc'
              refine ⟨by omega, hdue, ⟨m, hm, by linarith⟩, hlen2, ?_, rfl⟩
              intro x hx
              exact List.mem_of_mem_filter hx
          · exact hb c' hc'

theorem step2_spec (input : TaskSelectorInput) (count : ℕ) :
    ∀ t ∈ (step2Of input count).1,
      ∃ c ∈ consolidationsOf input,
        t = consolidationTask (masteryMapOf input) c := by
  unfold step2Of
  refine foldl_preserve _
    (fun (acc : List TaskRecommendation × List String) => ∀ t ∈ acc.1,
      ∃ c ∈ consolidationsOf input, t = consolidationTask (masteryMapOf input) c)
    (consolidationsOf input) ([], []) ?_ (by simp)
  intro b c hc hb t ht
  split_ifs at ht with hcount
  · exact hb t ht
  · rcases List.mem_append.mp ht with ht | ht
    · exact hb t ht
    · simp only [List.mem_singleton] at ht
      exact ⟨c, hc, ht⟩

theorem step3_spec (input : TaskSelectorInput) (count : ℕ) :
    ∀ t ∈ step3Of input count,
      (∃ c ∈ consolidationsOf input,
        t = consolidationTask (masteryMapOf input) c) ∨
        (t.taskType = TaskType.REVIEW ∧
          (mapGet (topicMapOf input) t.topicId).isSome = true) := by
  simp only [step3Of]
  refine foldl_preserve _
    (fun tasks => ∀ t ∈ tasks,
      (∃ c ∈ consolidationsOf input,
        t = consolidationTask (masteryMapOf input) c) ∨
        (t.taskType = TaskType.REVIEW ∧
          (mapGet (topicMapOf input) t.topicId).isSome = true))
    (remainingDueOf input count) ((step2Of input count).1) ?_ ?_
  · intro b r hr hb t ht
    split_ifs at ht with h1 h2
    · exact hb t ht
    · exact hb t ht
    · cases hm : mapGet (topicMapOf input) r.topicId with
      | none => rw [hm] at ht; exact hb t ht
      | some topic =>
        rw [hm] at ht
        rcases List.mem_append.mp ht with ht | ht
        · exact hb t ht
        · simp only [List.mem_singleton] at ht
          subst ht
          right
          refine ⟨rfl, ?_⟩
          have hid : (reviewTask topic (mapGet (masteryMapOf input) r.topicId) r).topicId
              = r.topicId := rfl
          rw [hid, hm]
          rfl
  · intro t ht
    exact Or.inl (step2_spec input count t ht)

theorem step4_spec (input : TaskSelectorInput) (count : ℕ) :
    ∀ t ∈ step4Of input count,
      t ∈ step3Of input count ∨ t.taskType = TaskType.NEW_TOPIC := by
  simp only [step4Of]
  split_ifs with hgate
  · refine foldl_preserve _
      (fun tasks => ∀ t ∈ tasks,
        t ∈ step3Of input count ∨ t.taskType = TaskType.NEW_TOPIC)
      _ (step3Of input count) ?_ (fun t ht => Or.inl ht)
    intro b topic htopic hb t ht
    split_ifs at ht with h1
    · exact hb t ht
    · rcases List.mem_append.mp ht with ht | ht
      · exact hb t ht
      · simp only [List.mem_singleton] at ht
        subst ht
        exact Or.inr rfl
  · exact fun t ht => Or.inl ht

theorem step4_gate (input : TaskSelectorInput) (count : ℕ)
    (h : 5 ≤ outstandingReviewsOf input count) :
    step4Of input count = step3Of input count := by
  simp only [step4Of]
  rw [if_neg]
  rintro ⟨h1, _⟩
  omega

/-! ### Claim C3 -/

/-- C3: when the number of due review-queue entries minus the number of due
topics covered by the emitted consolidation tasks is at least 5, the returned
task list contains no NEW_TOPIC task, regardless of the frontier. -/
theorem selector_backlog_gate_C3 (input : TaskSelectorInput) (count : ℕ) (now : ℚ)
    (h : 5 ≤ outstandingReviewsOf input count) :
    ((selectNextTasks input count now).all
      (fun t => decide (t.taskType ≠ TaskType.NEW_TOPIC))) = true := by
  rw [List.all_eq_true]
  intro t ht
  rw [decide_eq_true_iff]
  have ht4 : t ∈ step4Of input count := interleave_mem t ht
  rw [step4_gate input count h] at ht4
  rcases step3_spec input count t ht4 with ⟨c, _, rfl⟩ | ⟨hR, _⟩
  · have hty : (consolidationTask (masteryMapOf input) c).taskType
        = TaskType.CONSOLIDATION := rfl
    rw [hty]
    intro hx
    cases hx
  · rw [hR]
    intro hx
    cases hx

/-- C3 witness: five due topics with no consolidation opportunity and a
nonempty frontier-free input; the gate blocks new topics. -/
theorem selector_backlog_gate_C3_witness :
    5 ≤ outstandingReviewsOf exInput3 5 ∧
      ((selectNextTasks exInput3 5 0).all
        (fun t => decide (t.taskType ≠ TaskType.NEW_TOPIC))) = true :=
  ⟨by
    have h : outstandingReviewsOf exInput3 5 = 5 := by with_unfolding_all rfl
    rw [h],
   selector_backlog_gate_C3 exInput3 5 0 (by
    have h : outstandingReviewsOf exInput3 5 = 5 := by with_unfolding_all rfl
    rw [h])⟩

/-! ### Claim C4 -/

/-- C4: every CONSOLIDATION task in the output satisfies: at least 3 distinct
topics were due, it covers at least 2 due topics, its own topic is not due and
has a mastery record with level at least 0.3, and its urgency is the average
urgency of the covered due topics plus the fixed 0.2 bonus. -/
theorem consolidation_task_properties_C4 (input : TaskSelectorInput) (count : ℕ)
    (now : ℚ) (t : TaskRecommendation)
    (ht : t ∈ selectNextTasks input count now)
    (htype : t.taskType = TaskType.CONSOLIDATION) :
    3 ≤ (dueTopicIdsOf input).length ∧
      ∃ covered, t.fireConsolidatesTopics = some covered ∧
        2 ≤ covered.length ∧
        (∀ x ∈ covered, x ∈ dueTopicIdsOf input) ∧
        t.topicId ∉ dueTopicIdsOf input ∧
        (∃ m, mapGet (masteryMapOf input) t.topicId = some m ∧
          3/10 ≤ m.masteryLevel) ∧
        t.urgency = (covered.foldl
            (fun sum i => sum + ((mapGet (urgencyMapOf input) i).getD 0)) 0) /
            (covered.length : ℚ) + 2/10 := by
  have ht4 : t ∈ step4Of input count := interleave_mem t ht
  rcases step4_spec input count t ht4 with ht3 | hN
  · rcases step3_spec input count t ht3 with ⟨c, hc, rfl⟩ | ⟨hR, _⟩
    · obtain ⟨h3, hnotdue, hm, h2, hsub, hpri⟩ := consolidationsOf_spec input c hc
      exact ⟨h3, c.consolidates, rfl, h2, hsub, hnotdue, hm, hpri⟩
    · rw [htype] at hR
      cases hR
  · rw [htype] at hN
    cases hN

/-- C4 witness: on `exInput4` the task for `W` is a CONSOLIDATION task
covering the due topics `Z1` and `Z2`. -/
theorem consolidation_task_properties_C4_witness :
    3 ≤ (dueTopicIdsOf exInput4).length ∧
      ∃ covered, exConsTask.fireConsolidatesTopics = some covered ∧
        2 ≤ covered.length ∧
        (∀ x ∈ covered, x ∈ dueTopicIdsOf exInput4) ∧
        exConsTask.topicId ∉ dueTopicIdsOf exInput4 ∧
        (∃ m, mapGet (masteryMapOf exInput4) exConsTask.topicId = some m ∧
          3/10 ≤ m.masteryLevel) ∧
        exConsTask.urgency = (covered.foldl
            (fun sum i => sum + ((mapGet (urgencyMapOf exInput4) i).getD 0)) 0) /
            (covered.length : ℚ) + 2/10 :=
  consolidation_task_properties_C4 exInput4 2 0 exConsTask (by
    have h : selectNextTasks exInput4 2 0 = [exConsTask, exReviewZ3] := by
      with_unfolding_all rfl
    rw [h]
    exact List.mem_cons_self _ _) rfl

/-! ### Claim C8 -/

/-- C8: when a due review-queue entry references a topic id absent from the
topic list, `selectNextTasks` still returns a plain task list (the entry is
skipped, mirroring the `continue` of the source) and no REVIEW task for that
absent topic id appears in the output. -/
theorem selector_missing_topic_C8 (input : TaskSelectorInput) (count : ℕ)
    (now : ℚ) (r : ReviewQueueItem) (hr : r ∈ input.reviewQueue)
    (hdue : r.isDue = true)
    (habs : r.topicId ∉ input.allTopics.map (fun t => t.id)) :
    ((selectNextTasks input count now).all
      (fun t => decide (¬(t.taskType = TaskType.REVIEW ∧
        t.topicId = r.topicId)))) = true := by
  rw [List.all_eq_true]
  intro t ht
  rw [decide_eq_true_iff]
  rintro ⟨hR, hid⟩
  have ht4 : t ∈ step4Of input count := interleave_mem t ht
  rcases step4_spec input count t ht4 with ht3 | hN
  · rcases step3_spec input count t ht3 with ⟨c, _, rfl⟩ | ⟨_, hsome⟩
    · have hty : (consolidationTask (masteryMapOf input) c).taskType
          = TaskType.CONSOLIDATION := rfl
      rw [hty] at hR
      cases hR
    · rw [hid] at hsome
      obtain ⟨topic, htopic⟩ := Option.isSome_iff_exists.mp hsome
      unfold topicMapOf at htopic
      have hkey := mapGet_some_mem_keys htopic
      have hmem := mkMap_keys_subset (input.allTopics.map (fun t => (t.id, t)))
        r.topicId hkey
      exact habs (by simpa using hmem)
  · rw [hN] at hR
    cases hR

/-- C8 witness: the input with a due entry for the absent topic `"ghost"`. -/
theorem selector_missing_topic_C8_witness :
    ((selectNextTasks exInput8 5 0).all
      (fun t => decide (¬(t.taskType = TaskType.REVIEW ∧
        t.topicId = exGhost.topicId)))) = true :=
  selector_missing_topic_C8 exInput8 5 0 exGhost
    (List.mem_cons_self _ _) rfl (by simp [exInput8, mkTopic, exGhost, mkDue])

end Gmate
